import Mathlib

/-!
Verification of a Go-Back-N reliable UDP file transfer implementation.
This file gives a shallow embedding of the wire codec (src/common/protocol.c),
the CRC-32 routine (crc32.c), the receiver session machine (src/server/main.c)
and the sender window loop (src/client/main.c), together with theorems that
settle the specification claims about them.
-/

namespace RUDP

/-- Octets as they appear on the wire and in C uint8_t buffers. -/
abbrev Byte := Fin 256

/-! ## CRC-32 (crc32.c) -/

/-- Reflected IEEE 802.3 CRC-32 polynomial constant from crc32.c. -/
def crcPoly : Nat := 0xEDB88320

/-- One bit-round of the reflected CRC update, the inner loop body of
init_table: `if (c & 1) c = 0xEDB88320u ^ (c >> 1); else c >>= 1;`. -/
def crcStepBit (c : Nat) : Nat :=
  if c % 2 = 1 then crcPoly ^^^ (c / 2) else c / 2

/-- Eight bit-rounds, the `for (j = 0; j < 8; j++)` loop of init_table. -/
def crcStep8 (c : Nat) : Nat :=
  crcStepBit (crcStepBit (crcStepBit (crcStepBit
    (crcStepBit (crcStepBit (crcStepBit (crcStepBit c)))))))

/-- Entry i of the lookup table built by init_table in crc32.c:
table[i] is the result of running eight bit-rounds on i. -/
def crcTableEntry (i : Nat) : Nat := crcStep8 i

/-- The accumulator loop of ru_crc32:
`c = table[(c ^ data[i]) & 0xFFu] ^ (c >> 8);` over the input octets. -/
def ru_crc32Aux (c : Nat) : List Byte → Nat
  | [] => c
  | b :: rest => ru_crc32Aux (crcTableEntry ((c ^^^ b.val) % 256) ^^^ (c / 256)) rest

/-- ru_crc32 from crc32.c: table-driven reflected CRC-32 with initial value
0xFFFFFFFF and final xor 0xFFFFFFFF. -/
def ru_crc32 (data : List Byte) : Nat := ru_crc32Aux 0xFFFFFFFF data ^^^ 0xFFFFFFFF

/-- Specification reference for claim C8, following the spec words:
the bitwise reflected CRC-32 xors each octet into the accumulator and then
runs eight bit-rounds with polynomial 0xEDB88320. -/
def crc32BitwiseAux (c : Nat) : List Byte → Nat
  | [] => c
  | b :: rest => crc32BitwiseAux (crcStep8 (c ^^^ b.val)) rest

/-- Specification reference for claim C8: bitwise reflected IEEE 802.3 CRC-32,
initial value 0xFFFFFFFF, final xor 0xFFFFFFFF. -/
def crc32Bitwise (data : List Byte) : Nat := crc32BitwiseAux 0xFFFFFFFF data ^^^ 0xFFFFFFFF

/-! ## Wire codec (protocol.h / protocol.c) -/

/-- Packet type constants from protocol.h. -/
def PT_HANDSHAKE : Nat := 0

/-- HANDSHAKE_ACK packet type. -/
def PT_HANDSHAKE_ACK : Nat := 1

/-- DATA packet type. -/
def PT_DATA : Nat := 2

/-- ACK packet type. -/
def PT_ACK : Nat := 3

/-- FIN packet type. -/
def PT_FIN : Nat := 4

/-- FIN_ACK packet type. -/
def PT_FIN_ACK : Nat := 5

/-- ERROR packet type. -/
def PT_ERROR : Nat := 6

/-- The Packet struct of protocol.h. In C the struct carries both a length
field (filled in by unpack) and a payload_size; after a successful unpack both
equal the number of payload octets, and pack reads only payload_size, so the
model keeps a single payload list. -/
structure Packet where
  magic0 : Nat
  magic1 : Nat
  version : Nat
  ptype : Nat
  seq : Nat
  total : Nat
  window : Nat
  checksum : Nat
  payload : List Byte
  deriving DecidableEq

/-- Truncation of a machine integer to one octet, as done by the byte writes
of pack (big-endian lane extraction). -/
def byteOf (v : Nat) : Byte := ⟨v % 256, Nat.mod_lt v (by omega)⟩

/-- pack from protocol.c: 20-octet big-endian header followed by the payload.
For a DATA packet whose checksum field is zero and whose payload is nonempty,
pack computes the CRC-32 of the payload and writes that instead. -/
def pack (p : Packet) : List Byte :=
  let chk := if p.ptype = PT_DATA ∧ p.checksum = 0 ∧ p.payload ≠ [] then
      ru_crc32 p.payload
    else p.checksum
  [ byteOf p.magic0, byteOf p.magic1, byteOf p.version, byteOf p.ptype,
    byteOf (p.seq / 16777216), byteOf (p.seq / 65536),
    byteOf (p.seq / 256), byteOf p.seq,
    byteOf (p.total / 16777216), byteOf (p.total / 65536),
    byteOf (p.total / 256), byteOf p.total,
    byteOf (p.payload.length / 256), byteOf p.payload.length,
    byteOf (p.window / 256), byteOf p.window,
    byteOf (chk / 16777216), byteOf (chk / 65536),
    byteOf (chk / 256), byteOf chk ] ++ p.payload

/-- The three decode failures of unpack in protocol.c: return values -1, -2
and -3. The -4 malloc failure is not modelled (memory is implicit here). -/
inductive DecodeErr where
  | shortHeader
  | badMagic
  | truncatedPayload
  deriving DecidableEq

/-- Big-endian reconstruction of a 32-bit field (ntohl after memcpy). -/
def fromBe32 (b0 b1 b2 b3 : Byte) : Nat :=
  b0.val * 16777216 + b1.val * 65536 + b2.val * 256 + b3.val

/-- Big-endian reconstruction of a 16-bit field (ntohs after memcpy). -/
def fromBe16 (b0 b1 : Byte) : Nat := b0.val * 256 + b1.val

/-- The magic and version check of unpack:
`p->magic0 == 0x52 && p->magic1 == 0x55 && p->version == 1` on the first
three octets. -/
def magicOk (bs : List Byte) : Prop :=
  bs.getD 0 0 = (82 : Byte) ∧ bs.getD 1 0 = (85 : Byte) ∧ bs.getD 2 0 = (1 : Byte)

instance (bs : List Byte) : Decidable (magicOk bs) := by
  unfold magicOk
  infer_instance

/-- The declared payload length: the big-endian 16-bit field at octets 12
and 13. -/
def lenField (bs : List Byte) : Nat := fromBe16 (bs.getD 12 0) (bs.getD 13 0)

/-- The packet a successful unpack produces: header fields read from their
offsets, payload the first lenField octets after the header, trailing
octets ignored. -/
def decodedPacket (bs : List Byte) : Packet :=
  { magic0 := (bs.getD 0 0).val
    magic1 := (bs.getD 1 0).val
    version := (bs.getD 2 0).val
    ptype := (bs.getD 3 0).val
    seq := fromBe32 (bs.getD 4 0) (bs.getD 5 0) (bs.getD 6 0) (bs.getD 7 0)
    total := fromBe32 (bs.getD 8 0) (bs.getD 9 0) (bs.getD 10 0) (bs.getD 11 0)
    window := fromBe16 (bs.getD 14 0) (bs.getD 15 0)
    checksum := fromBe32 (bs.getD 16 0) (bs.getD 17 0) (bs.getD 18 0) (bs.getD 19 0)
    payload := (bs.drop 20).take (lenField bs) }

/-- unpack from protocol.c. Checks, in order: at least 20 octets (return
-1); magic octets 0x52 0x55 and version 1 (return -2); declared length
available after the header (return -3). On success it copies the header
fields and the first lenField payload octets, ignoring trailing octets. -/
def unpack (bs : List Byte) : Except DecodeErr Packet :=
  if bs.length < 20 then .error .shortHeader
  else if ¬ magicOk bs then .error .badMagic
  else if bs.length < 20 + lenField bs then .error .truncatedPayload
  else .ok (decodedPacket bs)

/-- The observable decode status: which error occurred, if any. -/
def unpackStatus (bs : List Byte) : Option DecodeErr :=
  match unpack bs with
  | .error e => some e
  | .ok _ => none

/-- Overwrite the checksum field (octets 16 to 19) of a datagram that has
a full header, leaving every other octet alone. -/
def setChecksumBytes (bs : List Byte) (c0 c1 c2 c3 : Byte) : List Byte :=
  bs.take 16 ++ [c0, c1, c2, c3] ++ bs.drop 20

example : ru_crc32 [⟨49, by omega⟩, ⟨50, by omega⟩, ⟨51, by omega⟩] = 0x884863D2 := by decide

example : ru_crc32 [] = 0 := by decide

example : crc32Bitwise [⟨49, by omega⟩, ⟨50, by omega⟩, ⟨51, by omega⟩] = 0x884863D2 := by decide

/-! ## Equivalence of the table-driven CRC with the bitwise reference -/

lemma xor_left_comm (a b c : Nat) : a ^^^ (b ^^^ c) = b ^^^ (a ^^^ c) := by
  rw [← Nat.xor_assoc, Nat.xor_comm a b, Nat.xor_assoc]

lemma xor_xor_cancel (p a b : Nat) : (p ^^^ a) ^^^ (p ^^^ b) = a ^^^ b := by
  apply Nat.eq_of_testBit_eq
  intro i
  simp only [Nat.testBit_xor]
  cases p.testBit i <;> cases a.testBit i <;> cases b.testBit i <;> rfl

lemma xor_mod_two (a b : Nat) : (a ^^^ b) % 2 = (a % 2 + b % 2) % 2 := by
  have h := Nat.xor_mod_two_eq_one (a := a) (b := b)
  rcases Nat.mod_two_eq_zero_or_one a with ha | ha <;>
    rcases Nat.mod_two_eq_zero_or_one b with hb | hb <;>
    rcases Nat.mod_two_eq_zero_or_one (a ^^^ b) with hab | hab <;>
    simp [ha, hb, hab] at h ⊢

lemma crcStepBit_xor (a b : Nat) :
    crcStepBit (a ^^^ b) = crcStepBit a ^^^ crcStepBit b := by
  have hab := xor_mod_two a b
  unfold crcStepBit
  rcases Nat.mod_two_eq_zero_or_one a with ha | ha <;>
    rcases Nat.mod_two_eq_zero_or_one b with hb | hb
  · rw [if_neg (by omega), if_neg (by omega), if_neg (by omega), Nat.xor_div_two]
  · rw [if_pos (by omega), if_neg (by omega), if_pos (by omega), Nat.xor_div_two]
    exact xor_left_comm crcPoly (a / 2) (b / 2)
  · rw [if_pos (by omega), if_pos (by omega), if_neg (by omega), Nat.xor_div_two]
    exact (Nat.xor_assoc crcPoly (a / 2) (b / 2)).symm
  · rw [if_neg (by omega), if_pos (by omega), if_pos (by omega), Nat.xor_div_two]
    exact (xor_xor_cancel crcPoly (a / 2) (b / 2)).symm

lemma crcStep8_xor (a b : Nat) :
    crcStep8 (a ^^^ b) = crcStep8 a ^^^ crcStep8 b := by
  simp [crcStep8, crcStepBit_xor]

lemma crcStepBit_two_mul (m : Nat) : crcStepBit (2 * m) = m := by
  unfold crcStepBit
  rw [if_neg (by omega)]
  omega

lemma crcStep8_mul256 (h : Nat) : crcStep8 (256 * h) = h := by
  have e : (256 : Nat) * h = 2 * (2 * (2 * (2 * (2 * (2 * (2 * (2 * h))))))) := by ring
  rw [crcStep8, e, crcStepBit_two_mul, crcStepBit_two_mul, crcStepBit_two_mul,
    crcStepBit_two_mul, crcStepBit_two_mul, crcStepBit_two_mul, crcStepBit_two_mul,
    crcStepBit_two_mul]

lemma xor_decomp_256 (x : Nat) : (x % 256) ^^^ (256 * (x / 256)) = x := by
  apply Nat.eq_of_testBit_eq
  intro i
  rw [Nat.testBit_xor]
  have h256 : (256 : Nat) = 2 ^ 8 := by norm_num
  rw [h256, Nat.testBit_mod_two_pow]
  have hsl : 2 ^ 8 * (x / 2 ^ 8) = (x / 2 ^ 8) <<< 8 := by
    rw [Nat.shiftLeft_eq]; ring
  have hsr : x / 2 ^ 8 = x >>> 8 := (Nat.shiftRight_eq_div_pow x 8).symm
  rw [hsl, Nat.testBit_shiftLeft, hsr, Nat.testBit_shiftRight]
  by_cases hi : i < 8
  · have h1 : decide (i < 8) = true := by simp [hi]
    have h2 : decide (i ≥ 8) = false := by
      simp only [decide_eq_false_iff_not]
      omega
    rw [h1, h2]
    simp
  · have h1 : decide (i < 8) = false := by
      simp only [decide_eq_false_iff_not]
      omega
    have h2 : decide (i ≥ 8) = true := by
      simp only [decide_eq_true_eq]
      omega
    have h8 : 8 + (i - 8) = i := by omega
    rw [h1, h2, h8]
    simp

lemma crcStep8_decomp (x : Nat) :
    crcStep8 x = crcTableEntry (x % 256) ^^^ (x / 256) := by
  conv_lhs => rw [← xor_decomp_256 x]
  rw [crcStep8_xor, crcStep8_mul256, crcTableEntry]

lemma xor_div_256 (a b : Nat) : (a ^^^ b) / 256 = (a / 256) ^^^ (b / 256) := by
  have h : ∀ y : Nat, y / 256 = y >>> 8 := fun y => by
    rw [Nat.shiftRight_eq_div_pow]
  rw [h, h, h]
  refine Nat.eq_of_testBit_eq (fun i => ?_)
  simp [Nat.testBit_shiftRight, Nat.testBit_xor]

lemma tableStep_eq_refStep (c : Nat) (b : Byte) :
    crcTableEntry ((c ^^^ b.val) % 256) ^^^ (c / 256) = crcStep8 (c ^^^ b.val) := by
  rw [crcStep8_decomp (c ^^^ b.val), xor_div_256]
  have hb : b.val / 256 = 0 := Nat.div_eq_of_lt b.isLt
  rw [hb, Nat.xor_zero]

lemma ru_crc32Aux_eq_bitwise (data : List Byte) :
    ∀ c, ru_crc32Aux c data = crc32BitwiseAux c data := by
  induction data with
  | nil => intro c; rfl
  | cons b rest ih =>
    intro c
    have h1 : ru_crc32Aux c (b :: rest)
        = ru_crc32Aux (crcTableEntry ((c ^^^ b.val) % 256) ^^^ (c / 256)) rest := rfl
    have h2 : crc32BitwiseAux c (b :: rest)
        = crc32BitwiseAux (crcStep8 (c ^^^ b.val)) rest := rfl
    rw [h1, h2, ih, tableStep_eq_refStep]

/-- C8: ru_crc32 computes the reflected IEEE 802.3 CRC-32 (polynomial
0xEDB88320 in reflected form, initial value 0xFFFFFFFF, final xor
0xFFFFFFFF): its table-driven accumulator agrees with the bitwise reference
definition on every octet sequence. -/
theorem c8_ru_crc32_is_reflected_crc32 (data : List Byte) :
    ru_crc32 data = crc32Bitwise data := by
  rw [ru_crc32, crc32Bitwise, ru_crc32Aux_eq_bitwise]

/-! ## Receiver session machine (src/server/main.c) -/

/-- A receiver session, the Session struct of server/main.c. The
last_activity timestamp, session_id and target_path fields only feed idle
eviction and on-disk file naming, which involve the wall clock and the
filesystem; the protocol-relevant fields are modelled. The sink list holds
the octets committed to the output file. -/
structure Session where
  key : String
  filename : List Byte
  total : Nat
  expected : Nat
  received : Nat
  sink : List Byte
  deriving DecidableEq

/-- Receiver state: the session array in insertion order (the C code
appends at index session_count and removes with an order-preserving
memmove) plus the operator window argument echoed in HANDSHAKE_ACK. -/
structure ServerState where
  sessions : List Session
  window : Nat
  deriving DecidableEq

/-- The isspace octets skipped by atoll: space and 0x09 to 0x0D. -/
def isSpaceByte (b : Byte) : Bool :=
  decide (b.val = 32 ∨ (9 ≤ b.val ∧ b.val ≤ 13))

/-- Decimal digit accumulator of atoll. -/
def digitsVal (acc : Nat) : List Byte → Nat
  | [] => acc
  | b :: rest =>
    if 48 ≤ b.val ∧ b.val ≤ 57 then digitsVal (acc * 10 + (b.val - 48)) rest
    else acc

/-- C atoll on the octets of a NUL-free C string: skip isspace octets, read
an optional sign, then consume leading decimal digits; no digits gives 0. -/
def atoll (bs : List Byte) : Int :=
  let t := bs.dropWhile isSpaceByte
  match t with
  | [] => 0
  | b :: rest =>
    if b.val = 45 then -(digitsVal 0 rest : Int)
    else if b.val = 43 then (digitsVal 0 rest : Int)
    else (digitsVal 0 (b :: rest) : Int)

/-- The C cast in `s->total = (size_t)atoll(parts[2])`: reduction of the
signed 64-bit value modulo 2 to the 64. -/
def toSizeT (i : Int) : Nat := (i % 18446744073709551616).toNat

/-- split from util.c on one delimiter octet: the number of parts is one
more than the number of delimiter occurrences, and empty parts are kept. -/
def splitB (d : Byte) : List Byte → List (List Byte)
  | [] => [[]]
  | b :: rest =>
    match splitB d rest with
    | [] => [[]]
    | p :: ps => if b = d then [] :: p :: ps else (b :: p) :: ps

/-- The zero-initialised reply skeleton the server uses: memset to zero,
then magic, version, type and the listed fields are filled in. -/
def ctrlPacket (t q tot w : Nat) (pl : List Byte) : Packet :=
  { magic0 := 82, magic1 := 85, version := 1, ptype := t,
    seq := q, total := tot, window := w, checksum := 0, payload := pl }

/-- Cumulative ACK reply carrying the given sequence number. -/
def ackPacket (q : Nat) : Packet := ctrlPacket PT_ACK q 0 0 []

/-- ERROR reply carrying a diagnostic payload. -/
def errorPacket (msg : List Byte) : Packet := ctrlPacket PT_ERROR 0 0 0 msg

/-- FIN_ACK reply. -/
def finAckPacket : Packet := ctrlPacket PT_FIN_ACK 0 0 0 []

/-- HANDSHAKE_ACK reply carrying the negotiated total and the receiver
window. -/
def hsAckPacket (tot w : Nat) : Packet := ctrlPacket PT_HANDSHAKE_ACK 0 tot w []

/-- Octets of the C string "bad handshake". -/
def badHandshakeMsg : List Byte :=
  [98, 97, 100, 32, 104, 97, 110, 100, 115, 104, 97, 107, 101]

/-- Octets of the C string "no session". -/
def noSessionMsg : List Byte :=
  [110, 111, 32, 115, 101, 115, 115, 105, 111, 110]

/-- cleanup_old_session: close and remove the first session whose key
matches (the scan breaks after the first hit). -/
def removeFirst (key : String) : List Session → List Session
  | [] => []
  | s :: rest => if s.key = key then rest else s :: removeFirst key rest

/-- The HANDSHAKE branch of the server main loop. The payload is copied
into a NUL-terminated C string before split, so octets from the first NUL
octet onward are ignored. Field 0 is the filename (strncpy bounded at 255
octets) and field 2 is the declared total; fields 1, 3 and 4 must exist to
pass the arity check but are never read. The C code then assigns the
size_t total to the uint32 total field of the HANDSHAKE_ACK. -/
def handleHandshake (st : ServerState) (key : String) (payload : List Byte) :
    ServerState × List Packet :=
  let meta := payload.takeWhile (fun b => b.val != 0)
  let parts := splitB 124 meta
  if parts.length < 5 then (st, [errorPacket badHandshakeMsg])
  else
    let ss := removeFirst key st.sessions
    if 100 ≤ ss.length then ({ st with sessions := ss }, [])
    else
      let snew : Session := {
        key := key
        filename := (parts.getD 0 []).take 255
        total := toSizeT (atoll (parts.getD 2 []))
        expected := 0
        received := 0
        sink := [] }
      ({ st with sessions := ss ++ [snew] },
       [hsAckPacket (snew.total % 4294967296) st.window])

/-- The per-session DATA handling of the server main loop: checksum
verification against ru_crc32 of the payload, in-order append with
increment of expected and received, and the cumulative ACK whose sequence
is computed from the post-update expected value. -/
def handleData (s : Session) (p : Packet) : Session × Packet :=
  if ru_crc32 p.payload ≠ p.checksum then
    (s, ackPacket (if 0 < s.expected then s.expected - 1 else 0))
  else
    let s2 := if p.seq = s.expected then
        { s with sink := s.sink ++ p.payload,
                 expected := s.expected + 1,
                 received := s.received + 1 }
      else s
    (s2, ackPacket (if 0 < s2.expected then s2.expected - 1 else 0))

/-- The find_session scan followed by the in-place update for a DATA
packet; when no session matches the server replies ERROR "no session". -/
def dataScan (key : String) (p : Packet) : List Session → List Session × List Packet
  | [] => ([], [errorPacket noSessionMsg])
  | s :: rest =>
    if s.key = key then
      let r := handleData s p
      (r.1 :: rest, [r.2])
    else
      let r := dataScan key p rest
      (s :: r.1, r.2)

/-- One iteration of the server ingress loop on a datagram from the peer
with the given address key: unpack, then dispatch on the packet type.
Replies are modelled as packets; the C code sends pack of each reply to
the source address. Undecodable datagrams and unknown types are ignored. -/
def serverStep (st : ServerState) (key : String) (dgram : List Byte) :
    ServerState × List Packet :=
  match unpack dgram with
  | .error _ => (st, [])
  | .ok p =>
    if p.ptype = PT_HANDSHAKE then handleHandshake st key p.payload
    else if p.ptype = PT_DATA then
      let r := dataScan key p st.sessions
      ({ st with sessions := r.1 }, r.2)
    else if p.ptype = PT_FIN then
      ({ st with sessions := removeFirst key st.sessions }, [finAckPacket])
    else (st, [])

/-- A datagram as it arrives at the server: source address key and octets. -/
abbrev Dgram := String × List Byte

/-- The server state after consuming a finite sequence of datagrams. -/
def serverRun (st : ServerState) : List Dgram → ServerState
  | [] => st
  | e :: es => serverRun (serverStep st e.1 e.2).1 es

/-- Every state the server passes through while consuming the datagrams. -/
def serverStates (st : ServerState) : List Dgram → List ServerState
  | [] => [st]
  | e :: es => st :: serverStates (serverStep st e.1 e.2).1 es

/-! ## Receiver claims -/

lemma ack_seq_clamp (n : Nat) : (if 0 < n then n - 1 else 0) = max n 1 - 1 := by
  rcases Nat.eq_zero_or_pos n with h | h
  · simp [h]
  · rw [if_pos h]
    omega

/-- C1: for a DATA packet for an existing session whose checksum verifies,
the in-order case appends the payload to the session sink and increments
expected and received by one, the out-of-order case commits nothing and
leaves the session unchanged (no buffering), and in both cases the reply
is an ACK with seq = max(expected, 1) - 1 computed from the post-update
expected. -/
theorem c1_data_commit_and_cumulative_ack (s : Session) (p : Packet)
    (hcrc : ru_crc32 p.payload = p.checksum) :
    (p.seq = s.expected →
      handleData s p =
        ({ s with sink := s.sink ++ p.payload,
                  expected := s.expected + 1,
                  received := s.received + 1 },
         ackPacket (max (s.expected + 1) 1 - 1))) ∧
    (p.seq ≠ s.expected →
      handleData s p = (s, ackPacket (max s.expected 1 - 1))) := by
  constructor
  · intro hseq
    simp only [handleData, if_neg (not_not_intro hcrc), if_pos hseq, ack_seq_clamp]
  · intro hseq
    simp only [handleData, if_neg (not_not_intro hcrc), if_neg hseq, ack_seq_clamp]

/-- Concrete session used to witness C1. -/
def sW1 : Session := ⟨"w1", [], 5, 2, 2, [97]⟩

/-- Concrete in-order DATA packet with a valid checksum, for the C1
witness. -/
def pW1 : Packet := { ctrlPacket PT_DATA 2 5 0 [65] with checksum := ru_crc32 [65] }

theorem c1_data_commit_and_cumulative_ack_witness :
    handleData sW1 pW1 =
      ({ sW1 with sink := sW1.sink ++ pW1.payload,
                  expected := sW1.expected + 1,
                  received := sW1.received + 1 },
       ackPacket (max (sW1.expected + 1) 1 - 1)) :=
  (c1_data_commit_and_cumulative_ack sW1 pW1 (by decide)).1 (by decide)

/-- C6: for a DATA packet for an existing session whose CRC-32 differs from
the checksum field, the session is left unchanged (nothing is committed,
expected and received keep their values) and the reply is an ACK with
seq = expected - 1, clamped to 0 when expected = 0. -/
theorem c6_checksum_mismatch_drop_and_reack (s : Session) (p : Packet)
    (hcrc : ru_crc32 p.payload ≠ p.checksum) :
    handleData s p =
      (s, ackPacket (if s.expected = 0 then 0 else s.expected - 1)) := by
  unfold handleData
  rw [if_pos hcrc]
  have harg : (if 0 < s.expected then s.expected - 1 else 0)
      = (if s.expected = 0 then 0 else s.expected - 1) := by
    rcases Nat.eq_zero_or_pos s.expected with h | h
    · simp [h]
    · rw [if_pos h, if_neg (by omega)]
  rw [harg]

/-- Concrete session used to witness C6. -/
def sW6 : Session := ⟨"w6", [], 5, 3, 3, []⟩

/-- Concrete corrupted DATA packet (checksum field does not match the
payload CRC), for the C6 witness. -/
def pW6 : Packet := { ctrlPacket PT_DATA 3 5 0 [66] with checksum := 7 }

theorem c6_checksum_mismatch_drop_and_reack_witness :
    handleData sW6 pW6 =
      (sW6, ackPacket (if sW6.expected = 0 then 0 else sW6.expected - 1)) :=
  c6_checksum_mismatch_drop_and_reack sW6 pW6 (by decide)

/-- Octets of "f|9|xyz|9|9": a handshake whose total field is not numeric. -/
def metaNonNumericTotal : List Byte :=
  [102, 124, 57, 124, 120, 121, 122, 124, 57, 124, 57]

/-- Octets of "f|9||9|9": a handshake whose total field is empty. -/
def metaEmptyTotal : List Byte :=
  [102, 124, 57, 124, 124, 57, 124, 57]

set_option maxRecDepth 8000 in
/-- C10: the handshake handler reads only metadata fields 0 (filename) and
2 (total): two handshakes agreeing on those two fields produce identical
results no matter what the filesize, chunk and window fields hold; and
because field 2 goes through atoll, a non-numeric or empty total field is
accepted and creates a session with total = 0 instead of being rejected. -/
theorem c10_handshake_reads_only_filename_and_total
    (st : ServerState) (key : String) (pl pl2 : List Byte)
    (h5 : 5 ≤ (splitB 124 (pl.takeWhile (fun b => b.val != 0))).length)
    (h5b : 5 ≤ (splitB 124 (pl2.takeWhile (fun b => b.val != 0))).length)
    (h0 : (splitB 124 (pl.takeWhile (fun b => b.val != 0))).getD 0 []
        = (splitB 124 (pl2.takeWhile (fun b => b.val != 0))).getD 0 [])
    (h2 : (splitB 124 (pl.takeWhile (fun b => b.val != 0))).getD 2 []
        = (splitB 124 (pl2.takeWhile (fun b => b.val != 0))).getD 2 []) :
    handleHandshake st key pl = handleHandshake st key pl2
    ∧ handleHandshake ⟨[], 8⟩ key metaNonNumericTotal
        = (⟨[⟨key, [102], 0, 0, 0, []⟩], 8⟩, [hsAckPacket 0 8])
    ∧ handleHandshake ⟨[], 8⟩ key metaEmptyTotal
        = (⟨[⟨key, [102], 0, 0, 0, []⟩], 8⟩, [hsAckPacket 0 8]) := by
  refine ⟨?_, rfl, rfl⟩
  simp only [handleHandshake]
  rw [if_neg (show ¬ (splitB 124 (pl.takeWhile (fun b => b.val != 0))).length < 5 from
        by omega),
      if_neg (show ¬ (splitB 124 (pl2.takeWhile (fun b => b.val != 0))).length < 5 from
        by omega),
      h0, h2]

/-- Concrete metadata "a|1|7|2|3" for the C10 witness. -/
def plW10 : List Byte := [97, 124, 49, 124, 55, 124, 50, 124, 51]

/-- Concrete metadata "a|999|7|888|777|x" agreeing with plW10 on fields 0
and 2 only. -/
def plW10b : List Byte :=
  [97, 124, 57, 57, 57, 124, 55, 124, 56, 56, 56, 124, 55, 55, 55, 124, 120]

theorem c10_handshake_reads_only_filename_and_total_witness :
    handleHandshake ⟨[], 8⟩ ("k") plW10 = handleHandshake ⟨[], 8⟩ ("k") plW10b :=
  (c10_handshake_reads_only_filename_and_total ⟨[], 8⟩ ("k") plW10 plW10b
    (by decide) (by decide) (by decide) (by decide)).1

/-- A full session table: 100 sessions with distinct peer keys. -/
def st100 : ServerState :=
  ⟨(List.range 100).map (fun i => ⟨("p" ++ toString i), [], 0, 0, 0, []⟩), 8⟩

/-- Octets of "f|1|1|1|8", a well-formed handshake metadata tuple. -/
def hsMeta5 : List Byte := [102, 124, 49, 124, 49, 124, 49, 124, 56]

/-- Wire octets of a HANDSHAKE carrying hsMeta5. -/
def hsDgramFull : List Byte := pack (ctrlPacket PT_HANDSHAKE 0 0 0 hsMeta5)

set_option maxRecDepth 100000 in
/-- C7 counterexample: with the session table at its capacity of 100, a
well-formed HANDSHAKE from a new peer produces no reply at all (in
particular no ERROR packet) and leaves the table unchanged; the claimed
ERROR reply does not exist. -/
theorem c7_counterexample_capacity_overflow_is_silent :
    serverStep st100 ("9.9.9.9:9") hsDgramFull = (st100, []) := by decide

/-- C7 amended: when the session table is at capacity after removing any
old session of the same peer, a handshake that passes the arity check is
dropped with no reply of any kind; for a peer with no existing session the
table is unchanged and no session is created. -/
theorem c7_amended_capacity_drop_without_reply
    (st : ServerState) (key : String) (pl : List Byte)
    (h5 : ¬ (splitB 124 (pl.takeWhile (fun b => b.val != 0))).length < 5)
    (hcap : 100 ≤ (removeFirst key st.sessions).length) :
    handleHandshake st key pl = ({ st with sessions := removeFirst key st.sessions }, []) := by
  simp only [handleHandshake]
  rw [if_neg h5, if_pos hcap]

set_option maxRecDepth 100000 in
theorem c7_amended_capacity_drop_without_reply_witness :
    handleHandshake st100 ("8.8.8.8:8") hsMeta5
      = ({ st100 with sessions := removeFirst ("8.8.8.8:8") st100.sessions }, []) :=
  c7_amended_capacity_drop_without_reply st100 ("8.8.8.8:8") hsMeta5
    (by decide) (by decide)

/-! ## Claim C3: expected versus total -/

/-- The spec invariant of claim C3 for a session list: every session keeps
expected at or below its declared total. -/
def sessionsBounded (l : List Session) : Prop := ∀ s ∈ l, s.expected ≤ s.total

instance (l : List Session) : Decidable (sessionsBounded l) :=
  List.decidableBAll _ l

/-- Conforming-traffic check for one DATA packet against the session the
find_session scan would select: a packet that would be committed
(checksum valid and seq equal to expected) must carry seq below the
declared session total. A conforming sender never sends seq at or above
total, so its traffic always passes this check. -/
def dataOkScan (key : String) (p : Packet) : List Session → Bool
  | [] => true
  | s :: rest =>
    if s.key = key then
      decide (¬(ru_crc32 p.payload = p.checksum ∧ p.seq = s.expected))
        || decide (p.seq < s.total)
    else dataOkScan key p rest

/-- Conforming-traffic check for one datagram. -/
def dgramOk (st : ServerState) (e : Dgram) : Bool :=
  match unpack e.2 with
  | .error _ => true
  | .ok p => if p.ptype = PT_DATA then dataOkScan e.1 p st.sessions else true

/-- Conforming-traffic check along a whole run. -/
def trafficOk (st : ServerState) : List Dgram → Bool
  | [] => true
  | e :: es => dgramOk st e && trafficOk (serverStep st e.1 e.2).1 es

lemma removeFirst_bounded (key : String) (l : List Session)
    (h : sessionsBounded l) : sessionsBounded (removeFirst key l) := by
  induction l with
  | nil => simpa [removeFirst] using h
  | cons s rest ih =>
    have hs := h s (by simp)
    have hrest : sessionsBounded rest := fun t ht => h t (by simp [ht])
    by_cases hk : s.key = key
    · simpa [removeFirst, hk] using hrest
    · intro t ht
      rw [removeFirst, if_neg hk] at ht
      rcases List.mem_cons.mp ht with h1 | h1
      · exact h1 ▸ hs
      · exact ih hrest t h1

lemma handleData_bounded (s : Session) (p : Packet)
    (hs : s.expected ≤ s.total)
    (hok : (decide (¬(ru_crc32 p.payload = p.checksum ∧ p.seq = s.expected))
        || decide (p.seq < s.total)) = true) :
    (handleData s p).1.expected ≤ (handleData s p).1.total := by
  unfold handleData
  by_cases hcrc : ru_crc32 p.payload = p.checksum
  · rw [if_neg (not_not_intro hcrc)]
    by_cases hseq : p.seq = s.expected
    · have hlt : p.seq < s.total := by
        rcases Bool.or_eq_true_iff.mp hok with h1 | h1
        · exact absurd ⟨hcrc, hseq⟩ (of_decide_eq_true h1)
        · exact of_decide_eq_true h1
      simp only [if_pos hseq]
      omega
    · simp only [if_neg hseq]
      exact hs
  · rw [if_pos hcrc]
    exact hs

lemma dataScan_bounded (key : String) (p : Packet) (l : List Session)
    (h : sessionsBounded l) (hok : dataOkScan key p l = true) :
    sessionsBounded (dataScan key p l).1 := by
  induction l with
  | nil => simp [dataScan, sessionsBounded]
  | cons s rest ih =>
    have hs := h s (by simp)
    have hrest : sessionsBounded rest := fun t ht => h t (by simp [ht])
    by_cases hk : s.key = key
    · rw [dataScan] at *
      rw [dataOkScan, if_pos hk] at hok
      intro t ht
      rw [if_pos hk] at ht
      rcases List.mem_cons.mp ht with h1 | h1
      · rw [h1]
        exact handleData_bounded s p hs hok
      · exact hrest t h1
    · rw [dataOkScan, if_neg hk] at hok
      intro t ht
      rw [dataScan, if_neg hk] at ht
      rcases List.mem_cons.mp ht with h1 | h1
      · exact h1 ▸ hs
      · exact ih hrest hok t h1

lemma handleHandshake_bounded (st : ServerState) (key : String) (pl : List Byte)
    (h : sessionsBounded st.sessions) :
    sessionsBounded (handleHandshake st key pl).1.sessions := by
  unfold handleHandshake
  by_cases h5 : (splitB 124 (pl.takeWhile (fun b => b.val != 0))).length < 5
  · simpa [h5] using h
  · rw [if_neg h5]
    by_cases hcap : 100 ≤ (removeFirst key st.sessions).length
    · simpa [hcap] using removeFirst_bounded key st.sessions h
    · rw [if_neg hcap]
      intro t ht
      simp only [List.mem_append, List.mem_singleton] at ht
      rcases ht with h1 | h1
      · exact removeFirst_bounded key st.sessions h t h1
      · rw [h1]
        exact Nat.zero_le _

lemma serverStep_bounded (st : ServerState) (key : String) (d : List Byte)
    (h : sessionsBounded st.sessions) (hok : dgramOk st (key, d) = true) :
    sessionsBounded (serverStep st key d).1.sessions := by
  unfold serverStep
  unfold dgramOk at hok
  cases hu : unpack d with
  | error e => simpa [hu] using h
  | ok p =>
    rw [hu] at hok
    simp only at hok
    by_cases h0 : p.ptype = PT_HANDSHAKE
    · simpa [h0] using handleHandshake_bounded st key p.payload h
    · by_cases h2 : p.ptype = PT_DATA
      · rw [if_pos h2] at hok
        simp only [if_neg h0, if_pos h2]
        exact dataScan_bounded key p st.sessions h hok
      · by_cases h4 : p.ptype = PT_FIN
        · simpa [h0, h2, h4] using removeFirst_bounded key st.sessions h
        · simpa [h0, h2, h4] using h

/-- C3 amended: the DATA path of the receiver never consults the session
total, so expected stays at or below total only for conforming traffic.
Under the hypothesis that every DATA packet that would be committed
carries seq below the total its session declared (true of every packet a
conforming sender emits), expected stays at or below total at every state
of a run, and a session whose expected has reached its total commits
nothing further to its sink. -/
theorem c3_amended_expected_le_total_for_conforming_traffic
    (evs : List Dgram) (st : ServerState)
    (hinv : sessionsBounded st.sessions)
    (hok : trafficOk st evs = true) :
    (∀ st2 ∈ serverStates st evs, sessionsBounded st2.sessions) ∧
    (∀ (s : Session) (p : Packet), ru_crc32 p.payload = p.checksum →
      p.seq < s.total → s.expected = s.total → (handleData s p).1 = s) := by
  constructor
  · induction evs generalizing st with
    | nil =>
      intro st2 h2
      rw [serverStates] at h2
      simp only [List.mem_singleton] at h2
      exact h2 ▸ hinv
    | cons e es ih =>
      intro st2 h2
      rw [trafficOk, Bool.and_eq_true] at hok
      rw [serverStates] at h2
      rcases List.mem_cons.mp h2 with h1 | h1
      · exact h1 ▸ hinv
      · exact ih (serverStep st e.1 e.2).1
          (serverStep_bounded st e.1 e.2 hinv (by
            rcases e with ⟨k, d⟩
            exact hok.1)) hok.2 st2 h1
  · intro s p hcrc hlt heq
    unfold handleData
    rw [if_neg (not_not_intro hcrc), if_neg (by omega)]

/-- Peer key for the C3 trace. -/
def keyC3 : String := "1.2.3.4:5"

/-- Wire octets of a HANDSHAKE declaring total 0: metadata "f|0|0|1|8". -/
def hsDgramC3 : List Byte :=
  pack (ctrlPacket PT_HANDSHAKE 0 0 0 [102, 124, 48, 124, 48, 124, 49, 124, 56])

/-- Wire octets of a DATA packet with seq 0, empty payload and checksum 0,
which is the valid CRC-32 of the empty payload. -/
def dataDgramC3 : List Byte := pack (ctrlPacket PT_DATA 0 0 0 [])

/-- C3 counterexample: a session created with declared total 0 commits an
in-order DATA packet anyway, because the DATA path never compares expected
with total; afterwards the session has expected 1 over total 0, refuting
both halves of the claim. -/
theorem c3_counterexample_expected_exceeds_total :
    ∃ s ∈ (serverRun ⟨[], 8⟩ [(keyC3, hsDgramC3), (keyC3, dataDgramC3)]).sessions,
      s.total < s.expected := by decide

/-- Initial state for the C3 witness. -/
def stW3 : ServerState := ⟨[], 8⟩

/-- C3 witness events: one handshake declaring total 1 (metadata
"f|1|1|1|8") followed by one valid in-order DATA packet with seq 0. -/
def evsW3 : List Dgram :=
  [(("w3"), pack (ctrlPacket PT_HANDSHAKE 0 0 0 hsMeta5)),
   (("w3"), pack (ctrlPacket PT_DATA 0 1 0 []))]

/-- The state the C3 witness run ends in: one session for peer w3 with
declared total 1, one committed packet. -/
def stW3final : ServerState := ⟨[⟨"w3", [102], 1, 1, 1, []⟩], 8⟩

set_option maxRecDepth 100000 in
theorem c3_amended_expected_le_total_for_conforming_traffic_witness :
    sessionsBounded stW3final.sessions :=
  (c3_amended_expected_le_total_for_conforming_traffic evsW3 stW3
    (by decide) (by decide)).1 stW3final (by decide)

/-! ## Sender window loop (src/client/main.c) -/

/-- Sender state of the windowed-transmission loop in client/main.c: base,
nextseq, the fixed total and window, whether the single retransmit timer
is running (its deadline is wall clock and abstracted away), the retry
counter and the configured retry limit. -/
structure SState where
  base : Nat
  nextseq : Nat
  total : Nat
  window : Nat
  timer : Bool
  retries : Nat
  maxRetries : Nat
  deriving DecidableEq

/-- The fill-window inner loop
`while (nextseq < total && nextseq < base + args.window)`: send the DATA
packet for nextseq, arm the timer when base equals nextseq and it is not
yet running, advance nextseq. The fuel argument only bounds the recursion;
fillWindow below passes enough fuel for the loop to run to completion.
Returns the new state and the sequence numbers sent. -/
def fillAux : Nat → SState → SState × List Nat
  | 0, st => (st, [])
  | fuel + 1, st =>
    if st.nextseq < st.total ∧ st.nextseq < st.base + st.window then
      let st1 := if st.base = st.nextseq ∧ st.timer = false then
          { st with timer := true }
        else st
      let r := fillAux fuel { st1 with nextseq := st1.nextseq + 1 }
      (r.1, st.nextseq :: r.2)
    else (st, [])

/-- The fill-window phase, with enough fuel for the loop to finish. -/
def fillWindow (st : SState) : SState × List Nat := fillAux (st.total + st.window) st

/-- The ACK drain of the loop body: at most one inbound datagram per
iteration; an ACK with seq at or above base advances base to seq + 1 (the
C code then frees the chunks below the new base), after which the timer is
cancelled when base reaches nextseq and restarted otherwise. Datagrams of
other types and stale ACKs are ignored. -/
def ackStep (st : SState) (inb : Option Packet) : SState :=
  match inb with
  | none => st
  | some p =>
    if p.ptype = PT_ACK ∧ st.base ≤ p.seq then
      { st with base := p.seq + 1,
                timer := if p.seq + 1 = st.nextseq then false else true }
    else st

/-- Sequence numbers base, ..., nextseq - 1. Chunks below base were freed
when they were acknowledged and chunks from base on are still allocated,
so the `if (chunks[s])` guard of the retransmit loop admits exactly this
range. -/
def retransmitList (st : SState) : List Nat :=
  (List.range (st.nextseq - st.base)).map (fun i => st.base + i)

/-- The timeout check at the end of each loop iteration. The wall clock is
abstracted by the fired flag, which says whether the deadline had passed;
it matters only while the timer is running. Returns none when the retry
limit is exceeded (the C code exits with code 3), otherwise the new state
and the retransmitted sequence numbers. -/
def timerStep (st : SState) (fired : Bool) : Option (SState × List Nat) :=
  if st.timer = true ∧ fired = true then
    if st.maxRetries < st.retries + 1 then none
    else some ({ st with retries := st.retries + 1, timer := true },
               retransmitList st)
  else some (st, [])

/-- One loop iteration worth of input: the decoded inbound datagram, if
any arrived, and whether the retransmit deadline had passed. -/
abbrev SEvent := Option Packet × Bool

/-- One iteration of the Go-Back-N send loop body: fill the window, drain
one inbound datagram, check the timer. -/
def senderStep (st : SState) (ev : SEvent) : Option (SState × List Nat) :=
  let f := fillWindow st
  let st2 := ackStep f.1 ev.1
  match timerStep st2 ev.2 with
  | none => none
  | some r => some (r.1, f.2 ++ r.2)

/-- Outcome of the send loop on a finite event sequence: the guard
`base < total` became false and control proceeds to the FIN phase, the
retry limit was exceeded (exit code 3), or the events ran out with the
loop still in progress. The sent list collects the sequence numbers of
all DATA packets transmitted by the loop. -/
inductive SOutcome where
  | finished (st : SState) (sent : List Nat)
  | failed
  | inProgress (st : SState) (sent : List Nat)
  deriving DecidableEq

/-- The send loop `while (base < total)` over a finite event list. -/
def senderRun (st : SState) : List SEvent → SOutcome
  | [] => if st.total ≤ st.base then .finished st [] else .inProgress st []
  | e :: es =>
    if st.total ≤ st.base then .finished st []
    else
      match senderStep st e with
      | none => .failed
      | some r =>
        match senderRun r.1 es with
        | .finished st2 sent => .finished st2 (r.2 ++ sent)
        | .failed => .failed
        | .inProgress st2 sent => .inProgress st2 (r.2 ++ sent)

/-- Every sender state at a loop-iteration boundary. -/
def senderStates (st : SState) : List SEvent → List SState
  | [] => [st]
  | e :: es =>
    if st.total ≤ st.base then [st]
    else
      match senderStep st e with
      | none => [st]
      | some r => st :: senderStates r.1 es

/-- The sender window invariant of claim C2. -/
def SInv (st : SState) : Prop :=
  st.base ≤ st.nextseq ∧ st.nextseq ≤ min (st.base + st.window) st.total

instance (st : SState) : Decidable (SInv st) := by
  unfold SInv
  infer_instance

/-- Conforming-ACK check along a run: every inbound ACK the sender would
accept (type ACK with seq at or above base, tested after the fill phase,
which is when the loop drains it) must acknowledge an already transmitted
packet, seq < nextseq. A conforming receiver only acknowledges packets it
received, so its ACKs always pass this check. -/
def acksOk (st : SState) : List SEvent → Bool
  | [] => true
  | e :: es =>
    if st.total ≤ st.base then true
    else
      let st1 := (fillWindow st).1
      let c := match e.1 with
        | none => true
        | some p => !(decide (p.ptype = PT_ACK) && decide (st1.base ≤ p.seq))
            || decide (p.seq < st1.nextseq)
      c && (match senderStep st e with
            | none => true
            | some r => acksOk r.1 es)

lemma fillAux_inv : ∀ (fuel : Nat) (st : SState), SInv st → SInv (fillAux fuel st).1 := by
  intro fuel
  induction fuel with
  | zero => intro st h; simpa [fillAux] using h
  | succ n ih =>
    intro st h
    rw [fillAux]
    by_cases hc : st.nextseq < st.total ∧ st.nextseq < st.base + st.window
    · rw [if_pos hc]
      by_cases ht : st.base = st.nextseq ∧ st.timer = false
      · simp only [if_pos ht]
        apply ih
        unfold SInv at h ⊢
        simp only
        omega
      · simp only [if_neg ht]
        apply ih
        unfold SInv at h ⊢
        simp only
        omega
    · rw [if_neg hc]
      exact h

lemma fillAux_frame : ∀ (fuel : Nat) (st : SState),
    (fillAux fuel st).1.base = st.base ∧ (fillAux fuel st).1.total = st.total ∧
    (fillAux fuel st).1.window = st.window := by
  intro fuel
  induction fuel with
  | zero => intro st; simp [fillAux]
  | succ n ih =>
    intro st
    rw [fillAux]
    by_cases hc : st.nextseq < st.total ∧ st.nextseq < st.base + st.window
    · rw [if_pos hc]
      by_cases ht : st.base = st.nextseq ∧ st.timer = false
      · simpa only [if_pos ht] using ih _
      · simpa only [if_neg ht] using ih _
    · rw [if_neg hc]
      exact ⟨rfl, rfl, rfl⟩

lemma ackStep_inv (st : SState) (inb : Option Packet)
    (h : SInv st)
    (hok : ∀ p, inb = some p → p.ptype = PT_ACK → st.base ≤ p.seq →
      p.seq < st.nextseq) :
    SInv (ackStep st inb) := by
  cases inb with
  | none => simpa [ackStep] using h
  | some p =>
    rw [ackStep]
    by_cases hc : p.ptype = PT_ACK ∧ st.base ≤ p.seq
    · rw [if_pos hc]
      have hlt := hok p rfl hc.1 hc.2
      unfold SInv at h ⊢
      simp only
      omega
    · rw [if_neg hc]
      exact h

lemma timerStep_inv (st : SState) (fired : Bool) (st2 : SState) (sent : List Nat)
    (h : SInv st) (he : timerStep st fired = some (st2, sent)) : SInv st2 := by
  unfold timerStep at he
  by_cases hc : st.timer = true ∧ fired = true
  · rw [if_pos hc] at he
    by_cases hr : st.maxRetries < st.retries + 1
    · rw [if_pos hr] at he
      exact absurd he (by simp)
    · rw [if_neg hr] at he
      have h2 := (Option.some.injEq _ _).mp he
      have h3 : st2 = { st with retries := st.retries + 1, timer := true } :=
        ((Prod.mk.injEq _ _ _ _).mp h2).1.symm
      rw [h3]
      exact h
  · rw [if_neg hc] at he
    have h2 := (Option.some.injEq _ _).mp he
    have h3 : st2 = st := ((Prod.mk.injEq _ _ _ _).mp h2).1.symm
    rw [h3]
    exact h

lemma senderStep_inv (st : SState) (ev : SEvent) (st2 : SState) (sent : List Nat)
    (h : SInv st)
    (hok : ∀ p, ev.1 = some p → p.ptype = PT_ACK → (fillWindow st).1.base ≤ p.seq →
      p.seq < (fillWindow st).1.nextseq)
    (he : senderStep st ev = some (st2, sent)) : SInv st2 := by
  simp only [senderStep] at he
  have h1 : SInv (fillWindow st).1 := fillAux_inv _ st h
  have h2 : SInv (ackStep (fillWindow st).1 ev.1) := ackStep_inv _ _ h1 hok
  cases ht : timerStep (ackStep (fillWindow st).1 ev.1) ev.2 with
  | none => simp [ht] at he
  | some r =>
    simp only [ht, Option.some.injEq, Prod.mk.injEq] at he
    rw [← he.1]
    exact timerStep_inv _ ev.2 r.1 r.2 h2 (by rw [ht])

/-- C2 amended: the ACK acceptance test `seq >= base` has no upper bound,
so the window invariant survives only conforming ACKs. Under the
hypothesis that every accepted inbound ACK acknowledges an already
transmitted packet (seq < next_seq at the moment it is drained, which is
true of every ACK a conforming receiver can emit), the sender state
satisfies base ≤ next_seq ≤ min(base + window, total) at every
loop-iteration boundary. -/
theorem c2_amended_window_invariant_for_conforming_acks
    (evs : List SEvent) (st : SState)
    (hinv : SInv st) (hok : acksOk st evs = true) :
    ∀ st2 ∈ senderStates st evs, SInv st2 := by
  induction evs generalizing st with
  | nil =>
    intro st2 h2
    rw [senderStates] at h2
    simp only [List.mem_singleton] at h2
    exact h2 ▸ hinv
  | cons e es ih =>
    intro st2 h2
    rw [senderStates] at h2
    rw [acksOk] at hok
    by_cases hg : st.total ≤ st.base
    · rw [if_pos hg] at h2
      simp only [List.mem_singleton] at h2
      exact h2 ▸ hinv
    · rw [if_neg hg] at h2
      rw [if_neg hg] at hok
      cases hs : senderStep st e with
      | none =>
        rw [hs] at h2
        simp only [List.mem_singleton] at h2
        exact h2 ▸ hinv
      | some r =>
        rw [hs] at h2 hok
        simp only [Bool.and_eq_true] at hok
        rcases List.mem_cons.mp h2 with h1 | h1
        · exact h1 ▸ hinv
        · refine ih r.1 ?_ hok.2 st2 h1
          refine senderStep_inv st e r.1 r.2 hinv ?_ (by rw [hs])
          intro p hp hty hge
          have hc := hok.1
          rw [hp] at hc
          have ha : decide (p.ptype = PT_ACK) = true := decide_eq_true hty
          have hb : decide ((fillWindow st).1.base ≤ p.seq) = true :=
            decide_eq_true hge
          simp only [ha, hb, Bool.and_self, Bool.not_true, Bool.false_or,
            decide_eq_true_eq] at hc
          exact hc

/-- Initial loop state of the sender for a transfer of t packets with the
given window and retry limit: base and nextseq start at 0, the timer is
not running, no retries have happened. -/
def initSender (t w m : Nat) : SState := ⟨0, 0, t, w, false, 0, m⟩

/-- A forged cumulative ACK with seq 5 (no upper validation exists). -/
def ackForged : Packet := ctrlPacket PT_ACK 5 0 0 []

/-- C2 counterexample: a 2-packet transfer with window 4 receives a single
inbound ACK with seq 5; the sender accepts it because 5 is at or above
base, sets base to 6 and reaches a loop boundary with base = 6 over
next_seq = 2, violating base ≤ next_seq ≤ min(base + window, total). -/
theorem c2_counterexample_forged_ack_breaks_invariant :
    ∃ st2 ∈ senderStates (initSender 2 4 20) [(some ackForged, false)], ¬ SInv st2 := by
  decide

/-- Witness events for C2: the same transfer receiving the conforming
ACK with seq 0. -/
def evsW2 : List SEvent := [(some (ctrlPacket PT_ACK 0 0 0 []), false)]

/-- The boundary state the C2 witness run reaches after the conforming
ACK with seq 0: base 1, next_seq 2, timer running. -/
def stW2final : SState := ⟨1, 2, 2, 4, true, 0, 20⟩

theorem c2_amended_window_invariant_for_conforming_acks_witness :
    SInv stW2final :=
  c2_amended_window_invariant_for_conforming_acks evsW2 (initSender 2 4 20)
    (by decide) (by decide) stW2final (by decide)

/-- total = (filesize + chunk - 1) / chunk, the packet count computed by
the sender (client/main.c line 137). -/
def totalPackets (filesize chunk : Nat) : Nat := (filesize + chunk - 1) / chunk

/-- C9: for a zero-byte source file and any chunk size at least 1 the
sender computes total = 0, the loop guard base < total fails immediately
for every inbound event sequence, so the windowed-transmission loop body
never runs, no DATA packet is ever sent, and control proceeds from the
HANDSHAKE phase directly to the FIN phase (outcome finished with an empty
sent list). -/
theorem c9_zero_byte_file_sends_no_data (chunk w m : Nat) (hc : 1 ≤ chunk)
    (evs : List SEvent) :
    totalPackets 0 chunk = 0 ∧
    senderRun (initSender (totalPackets 0 chunk) w m) evs
      = .finished (initSender 0 w m) [] := by
  have h0 : totalPackets 0 chunk = 0 := by
    unfold totalPackets
    apply Nat.div_eq_of_lt
    omega
  refine ⟨h0, ?_⟩
  rw [h0]
  cases evs with
  | nil => simp [senderRun, initSender]
  | cons e es => simp [senderRun, initSender]

theorem c9_zero_byte_file_sends_no_data_witness :
    totalPackets 0 1024 = 0 ∧
    senderRun (initSender (totalPackets 0 1024) 8 20) []
      = .finished (initSender 0 8 20) [] :=
  c9_zero_byte_file_sends_no_data 1024 8 20 (by decide) []

/-! ## Codec claims C4 and C5 -/

lemma list_long_form (bs : List Byte) (h : 20 ≤ bs.length) :
    ∃ b0 b1 b2 b3 b4 b5 b6 b7 b8 b9 b10 b11 b12 b13 b14 b15 b16 b17 b18 b19 rest, bs = b0::b1::b2::b3::b4::b5::b6::b7::b8::b9::b10::b11::b12::b13::b14::b15::b16::b17::b18::b19::rest := by
  rcases bs with _ | ⟨b0, bs⟩
  · simp only [List.length_cons, List.length_nil] at h
    omega
  rcases bs with _ | ⟨b1, bs⟩
  · simp only [List.length_cons, List.length_nil] at h
    omega
  rcases bs with _ | ⟨b2, bs⟩
  · simp only [List.length_cons, List.length_nil] at h
    omega
  rcases bs with _ | ⟨b3, bs⟩
  · simp only [List.length_cons, List.length_nil] at h
    omega
  rcases bs with _ | ⟨b4, bs⟩
  · simp only [List.length_cons, List.length_nil] at h
    omega
  rcases bs with _ | ⟨b5, bs⟩
  · simp only [List.length_cons, List.length_nil] at h
    omega
  rcases bs with _ | ⟨b6, bs⟩
  · simp only [List.length_cons, List.length_nil] at h
    omega
  rcases bs with _ | ⟨b7, bs⟩
  · simp only [List.length_cons, List.length_nil] at h
    omega
  rcases bs with _ | ⟨b8, bs⟩
  · simp only [List.length_cons, List.length_nil] at h
    omega
  rcases bs with _ | ⟨b9, bs⟩
  · simp only [List.length_cons, List.length_nil] at h
    omega
  rcases bs with _ | ⟨b10, bs⟩
  · simp only [List.length_cons, List.length_nil] at h
    omega
  rcases bs with _ | ⟨b11, bs⟩
  · simp only [List.length_cons, List.length_nil] at h
    omega
  rcases bs with _ | ⟨b12, bs⟩
  · simp only [List.length_cons, List.length_nil] at h
    omega
  rcases bs with _ | ⟨b13, bs⟩
  · simp only [List.length_cons, List.length_nil] at h
    omega
  rcases bs with _ | ⟨b14, bs⟩
  · simp only [List.length_cons, List.length_nil] at h
    omega
  rcases bs with _ | ⟨b15, bs⟩
  · simp only [List.length_cons, List.length_nil] at h
    omega
  rcases bs with _ | ⟨b16, bs⟩
  · simp only [List.length_cons, List.length_nil] at h
    omega
  rcases bs with _ | ⟨b17, bs⟩
  · simp only [List.length_cons, List.length_nil] at h
    omega
  rcases bs with _ | ⟨b18, bs⟩
  · simp only [List.length_cons, List.length_nil] at h
    omega
  rcases bs with _ | ⟨b19, bs⟩
  · simp only [List.length_cons, List.length_nil] at h
    omega
  exact ⟨b0, b1, b2, b3, b4, b5, b6, b7, b8, b9, b10, b11, b12, b13, b14, b15, b16, b17, b18, b19, bs, rfl⟩

lemma take20_eq_getD (bs : List Byte) (h : 20 ≤ bs.length) :
    bs.take 20 = [bs.getD 0 0, bs.getD 1 0, bs.getD 2 0, bs.getD 3 0,
      bs.getD 4 0, bs.getD 5 0, bs.getD 6 0, bs.getD 7 0,
      bs.getD 8 0, bs.getD 9 0, bs.getD 10 0, bs.getD 11 0,
      bs.getD 12 0, bs.getD 13 0, bs.getD 14 0, bs.getD 15 0,
      bs.getD 16 0, bs.getD 17 0, bs.getD 18 0, bs.getD 19 0] := by
  obtain ⟨b0, b1, b2, b3, b4, b5, b6, b7, b8, b9, b10, b11, b12, b13, b14, b15,
    b16, b17, b18, b19, rest, rfl⟩ := list_long_form bs h
  rfl

lemma byteOf_val (b : Byte) : byteOf b.val = b :=
  Fin.ext (Nat.mod_eq_of_lt b.isLt)

lemma be32_byte0 (b0 b1 b2 b3 : Byte) :
    byteOf (fromBe32 b0 b1 b2 b3 / 16777216) = b0 := by
  have h0 := b0.isLt
  have h1 := b1.isLt
  have h2 := b2.isLt
  have h3 := b3.isLt
  apply Fin.ext
  simp only [byteOf, fromBe32]
  omega

lemma be32_byte1 (b0 b1 b2 b3 : Byte) :
    byteOf (fromBe32 b0 b1 b2 b3 / 65536) = b1 := by
  have h0 := b0.isLt
  have h1 := b1.isLt
  have h2 := b2.isLt
  have h3 := b3.isLt
  apply Fin.ext
  simp only [byteOf, fromBe32]
  omega

lemma be32_byte2 (b0 b1 b2 b3 : Byte) :
    byteOf (fromBe32 b0 b1 b2 b3 / 256) = b2 := by
  have h0 := b0.isLt
  have h1 := b1.isLt
  have h2 := b2.isLt
  have h3 := b3.isLt
  apply Fin.ext
  simp only [byteOf, fromBe32]
  omega

lemma be32_byte3 (b0 b1 b2 b3 : Byte) :
    byteOf (fromBe32 b0 b1 b2 b3) = b3 := by
  have h0 := b0.isLt
  have h1 := b1.isLt
  have h2 := b2.isLt
  have h3 := b3.isLt
  apply Fin.ext
  simp only [byteOf, fromBe32]
  omega

lemma be16_byte0 (b0 b1 : Byte) : byteOf (fromBe16 b0 b1 / 256) = b0 := by
  have h0 := b0.isLt
  have h1 := b1.isLt
  apply Fin.ext
  simp only [byteOf, fromBe16]
  omega

lemma be16_byte1 (b0 b1 : Byte) : byteOf (fromBe16 b0 b1) = b1 := by
  have h0 := b0.isLt
  have h1 := b1.isLt
  apply Fin.ext
  simp only [byteOf, fromBe16]
  omega

lemma unpackStatus_congr (xs ys : List Byte)
    (hlen : xs.length = ys.length)
    (h0 : xs.getD 0 0 = ys.getD 0 0) (h1 : xs.getD 1 0 = ys.getD 1 0)
    (h2 : xs.getD 2 0 = ys.getD 2 0) (h12 : xs.getD 12 0 = ys.getD 12 0)
    (h13 : xs.getD 13 0 = ys.getD 13 0) :
    unpackStatus xs = unpackStatus ys := by
  have e2 : magicOk xs = magicOk ys := by
    unfold magicOk
    rw [h0, h1, h2]
  have e3 : lenField xs = lenField ys := by
    unfold lenField fromBe16
    rw [h12, h13]
  unfold unpackStatus unpack
  simp only [hlen, e2, e3]
  by_cases ha : ys.length < 20
  · simp [ha]
  · by_cases hm : magicOk ys
    · by_cases hl : ys.length < 20 + lenField ys
      · simp [ha, hm, hl]
      · simp [ha, hm, hl]
    · simp [ha, hm]

/-- C5: the unpack error taxonomy. The short-header error occurs exactly
when fewer than 20 octets are supplied; the bad-magic error exactly when a
full header carries wrong magic octets or version; the truncated-payload
error exactly when the declared length field exceeds the octets available
after the header; otherwise decoding succeeds, producing the header fields
(checksum field copied verbatim, never validated) and the first lenField
payload octets with any trailing octets ignored; and the decode status is
independent of the four checksum field octets. -/
theorem c5_unpack_error_taxonomy (bs : List Byte) :
    (unpack bs = .error .shortHeader ↔ bs.length < 20) ∧
    (unpack bs = .error .badMagic ↔ 20 ≤ bs.length ∧ ¬ magicOk bs) ∧
    (unpack bs = .error .truncatedPayload ↔
      20 ≤ bs.length ∧ magicOk bs ∧ bs.length < 20 + lenField bs) ∧
    (∀ p, unpack bs = .ok p ↔
      20 ≤ bs.length ∧ magicOk bs ∧ 20 + lenField bs ≤ bs.length ∧
        p = decodedPacket bs) ∧
    (∀ c0 c1 c2 c3 : Byte, 20 ≤ bs.length →
      unpackStatus (setChecksumBytes bs c0 c1 c2 c3) = unpackStatus bs) := by
  refine ⟨?_, ?_, ?_, ?_, ?_⟩
  · unfold unpack
    by_cases ha : bs.length < 20
    · simp [ha]
    · by_cases hm : magicOk bs
      · by_cases hl : bs.length < 20 + lenField bs
        · simp [ha, hm, hl]
        · simp [ha, hm, hl]
      · simp [ha, hm]
  · unfold unpack
    by_cases ha : bs.length < 20
    · simp [ha]
    · have ha2 : 20 ≤ bs.length := by omega
      by_cases hm : magicOk bs
      · by_cases hl : bs.length < 20 + lenField bs
        · simp [ha, hm, hl, ha2]
        · simp [ha, hm, hl, ha2]
      · simp [ha, hm, ha2]
  · unfold unpack
    by_cases ha : bs.length < 20
    · simp [ha]
    · have ha2 : 20 ≤ bs.length := by omega
      by_cases hm : magicOk bs
      · by_cases hl : bs.length < 20 + lenField bs
        · simp [ha, hm, hl, ha2]
        · simp [ha, hm, hl, ha2]
      · simp [ha, hm, ha2]
  · intro p
    unfold unpack
    by_cases ha : bs.length < 20
    · simp [ha]
    · have ha2 : 20 ≤ bs.length := by omega
      by_cases hm : magicOk bs
      · by_cases hl : bs.length < 20 + lenField bs
        · simp [ha, hm, hl, ha2]
        · have hl2 : 20 + lenField bs ≤ bs.length := by omega
          simp [ha, hm, hl, ha2, hl2, eq_comm]
      · simp [ha, hm, ha2]
  · intro c0 c1 c2 c3 h20
    obtain ⟨b0, b1, b2, b3, b4, b5, b6, b7, b8, b9, b10, b11, b12, b13, b14,
      b15, b16, b17, b18, b19, rest, rfl⟩ := list_long_form bs h20
    exact unpackStatus_congr _ _ rfl rfl rfl rfl rfl rfl

theorem c5_unpack_error_taxonomy_witness :
    unpack ([] : List Byte) = .error .shortHeader :=
  ((c5_unpack_error_taxonomy []).1).mpr (by decide)

/-- A well-formed on-wire datagram in the sense of claim C4: at least 20
octets, correct magic and version, and the declared length field equal to
the number of payload octets actually present after the header. -/
def wellFormed (bs : List Byte) : Prop :=
  20 ≤ bs.length ∧ magicOk bs ∧ lenField bs = bs.length - 20

instance (bs : List Byte) : Decidable (wellFormed bs) := by
  unfold wellFormed
  infer_instance

/-- The C4 counterexample datagram: a well-formed DATA packet with zero
checksum field and a single payload octet 0x00. -/
def xC4 : List Byte :=
  [82, 85, 1, 2, 0, 0, 0, 0, 0, 0, 0, 0, 0, 1, 0, 0, 0, 0, 0, 0, 0]

/-- C4 counterexample: pack recomputes the CRC-32 over the payload when a
DATA packet carries a zero checksum field and a nonempty payload, so
re-encoding this well-formed datagram changes octets 16 to 19 and fails to
reproduce the input. -/
theorem c4_counterexample_zero_checksum_data :
    wellFormed xC4 ∧ (unpack xC4).toOption.map pack ≠ some xC4 := by decide

/-- C4 amended: encode after decode reproduces every well-formed on-wire
datagram exactly, except a DATA datagram whose checksum field is zero and
whose payload is nonempty, for which pack writes the computed payload CRC
in place of the zero checksum field. -/
theorem c4_amended_repack_roundtrip (bs : List Byte)
    (hwf : wellFormed bs)
    (hnz : ¬((decodedPacket bs).ptype = PT_DATA ∧
             (decodedPacket bs).checksum = 0 ∧
             (decodedPacket bs).payload ≠ [])) :
    (unpack bs).toOption.map pack = some bs := by
  obtain ⟨h20, hm, hlen⟩ := hwf
  have hok : unpack bs = .ok (decodedPacket bs) := by
    unfold unpack
    rw [if_neg (by omega), if_neg (not_not_intro hm), if_neg (by omega)]
  rw [hok]
  have hstep : (((Except.ok (decodedPacket bs) : Except DecodeErr Packet)).toOption).map pack
      = some (pack (decodedPacket bs)) := rfl
  rw [hstep]
  suffices hpack : pack (decodedPacket bs) = bs by rw [hpack]
  have hpay : (bs.drop 20).take (lenField bs) = bs.drop 20 := by
    have hd : (bs.drop 20).length = bs.length - 20 := List.length_drop 20 bs
    rw [hlen, ← hd, List.take_length]
  have hlen2 : (bs.drop 20).length = lenField bs := by
    rw [List.length_drop]
    omega
  simp only [pack]
  rw [if_neg hnz]
  conv_rhs => rw [← List.take_append_drop 20 bs]
  rw [take20_eq_getD bs h20]
  simp only [decodedPacket]
  rw [hpay, hlen2]
  simp only [lenField]
  simp only [byteOf_val, be32_byte0, be32_byte1, be32_byte2, be32_byte3,
    be16_byte0, be16_byte1]

/-- Witness datagram for C4: a well-formed ACK datagram (seq 1, no
payload). -/
def xW4 : List Byte :=
  [82, 85, 1, 3, 0, 0, 0, 1, 0, 0, 0, 0, 0, 0, 0, 0, 0, 0, 0, 0]

theorem c4_amended_repack_roundtrip_witness :
    (unpack xW4).toOption.map pack = some xW4 :=
  c4_amended_repack_roundtrip xW4 (by decide) (by decide)

end RUDP
